import Mathlib

/-!
Shallow embedding of `src/data_generator.py` (class `ImageDataGenerator`):
manifest parsing (`_read_txt_file`), joint shuffling (`_shuffle_lists`),
and the per-sample transform pipeline (`_parse_function_train`,
`_parse_function_inference`, `augment`, `flip`) with the random draws of
the TensorFlow ops modelled as explicit rational inputs in [0, 1).

Python strings are modelled as `List Char`; float tensors as rational-valued
rasters.  The external collaborators that the pipeline calls into are embedded
by their documented semantics: `str.split(' ')`, `int(...)`, `os.path.join`,
`tf.one_hot`, bilinear `tf.image.resize_images`, `tf.subtract`, the `::-1`
channel reversal, and `tf.image.random_flip_left_right`.
-/

namespace MASF

/-- Python `str.split(' ')` on `List Char`: split at every single space,
keeping empty fragments; the empty string yields `[[]]`. -/
def splitOnSpaceCh : List Char → List (List Char)
  | [] => [[]]
  | c :: cs =>
    if c = ' ' then [] :: splitOnSpaceCh cs
    else
      match splitOnSpaceCh cs with
      | [] => [[c]]
      | t :: ts => (c :: t) :: ts

/-- Characters stripped by Python `int(str)` before parsing
(`str.strip()` whitespace, ASCII part). -/
def isPySpace (c : Char) : Bool :=
  c = ' ' || c = '\t' || c = '\n' || c = '\r' || c = '\x0b' || c = '\x0c'

/-- Digit run of a Python decimal integer literal: ASCII digits with single
underscores allowed between two digits (Python 3 grouping). -/
def digitsCore : List Char → Nat → Option Nat
  | [], acc => some acc
  | '_' :: c :: cs, acc =>
    if c.isDigit then digitsCore cs (acc * 10 + (c.toNat - 48)) else none
  | c :: cs, acc =>
    if c.isDigit then digitsCore cs (acc * 10 + (c.toNat - 48)) else none

/-- Parse a nonempty digit run (first char must be a digit). -/
def parseDigits : List Char → Option Nat
  | [] => none
  | c :: cs => if c.isDigit then digitsCore cs (c.toNat - 48) else none

/-- Python `int(s)` for base 10: strip surrounding whitespace, optional
single sign, then a digit run; `none` models the `ValueError`. -/
def pyInt (s : List Char) : Option Int :=
  let t := ((s.dropWhile isPySpace).reverse.dropWhile isPySpace).reverse
  match t with
  | '+' :: rest => (parseDigits rest).map (fun n => (n : Int))
  | '-' :: rest => (parseDigits rest).map (fun n => -(n : Int))
  | rest => (parseDigits rest).map (fun n => (n : Int))

/-- `os.path.join(a, b)` (posix): `b` absolute replaces `a`; otherwise
concatenate, inserting `/` unless `a` is empty or already ends with `/`. -/
def osPathJoin (a b : List Char) : List Char :=
  if b.head? = some '/' then b
  else if a = [] then b
  else if a.getLast? = some '/' then a ++ b
  else a ++ '/' :: b

/-- The failure of `_read_txt_file` on a malformed manifest line: either the
`IndexError` on `items[1]` (fewer than two space-split tokens) or the
`ValueError` from `int(items[1])`; the spec groups both as `FormatError`. -/
inductive LoadError
  | FormatError
  deriving DecidableEq

/-- One iteration of the loop in `_read_txt_file` (lines 80-83):
`items = line.split(' ')`, path `os.path.join(self.dataroot, items[0])`,
label `int(items[1])`; `none` when the line raises. -/
def parseManifestLine (dataroot line : List Char) : Option (List Char × Int) :=
  match splitOnSpaceCh line with
  | p :: t :: _ => (pyInt t).map (fun v => (osPathJoin dataroot p, v))
  | _ => none

/-- `_read_txt_file`: parse every line into aligned (path, label) pairs,
failing at the first malformed line. -/
def read_txt_file (dataroot : List Char) : List (List Char) → Except LoadError (List (List Char × Int))
  | [] => .ok []
  | l :: ls =>
    match parseManifestLine dataroot l with
    | none => .error .FormatError
    | some pr =>
      match read_txt_file dataroot ls with
      | .ok rest => .ok (pr :: rest)
      | .error e => .error e

/-- A manifest line the loop raises on: fewer than two space-split tokens
(including the empty line), or a second token `int` rejects. -/
def lineMalformed (line : List Char) : Bool :=
  match splitOnSpaceCh line with
  | _ :: t :: _ => (pyInt t).isNone
  | _ => true

/-- `_shuffle_lists` (lines 85-94): rebuild both lists by indexing each with
the same permutation (`path[i]`, `labels[i]` for `i` in `permutation`). -/
def shuffle_lists (paths : List (List Char)) (labels : List Int) (perm : List Nat) :
    List (List Char) × List Int :=
  (perm.map (fun i => paths.getD i []), perm.map (fun i => labels.getD i 0))

/-- A decoded 3-channel raster (`tf.image.decode_png(..., channels=3)`):
height, width, and a total rational-valued pixel function indexed by
row, column, channel.  The channel axis always has extent 3. -/
structure Image where
  h : Nat
  w : Nat
  pix : Nat → Nat → Fin 3 → ℚ

/-- The (height, width, channels) shape of a raster. -/
def Image.shape (img : Image) : Nat × Nat × Nat := (img.h, img.w, 3)

/-- Line 11: `IMAGENET_MEAN = tf.constant([123.68, 116.779, 103.939])`,
channel order R, G, B. -/
def IMAGENET_MEAN : Fin 3 → ℚ := fun c =>
  if c = 0 then 12368 / 100 else if c = 1 then 116779 / 1000 else 103939 / 1000

/-- Linear interpolation `a + (b - a) * t`. -/
def lerp (a b t : ℚ) : ℚ := a + (b - a) * t

/-- `tf.image.resize_images(img, [H, W])`: TF1 bilinear interpolation with
`align_corners=False` — source coordinate `dst * (in_extent / out_extent)`,
neighbours clamped to the last row/column. -/
def resize_images (img : Image) (H W : Nat) : Image :=
  { h := H, w := W,
    pix := fun y x c =>
      let inY : ℚ := (y : ℚ) * (img.h : ℚ) / (H : ℚ)
      let inX : ℚ := (x : ℚ) * (img.w : ℚ) / (W : ℚ)
      let y0 : Nat := (⌊inY⌋).toNat
      let x0 : Nat := (⌊inX⌋).toNat
      let y1 : Nat := min (y0 + 1) (img.h - 1)
      let x1 : Nat := min (x0 + 1) (img.w - 1)
      let fy : ℚ := inY - (y0 : ℚ)
      let fx : ℚ := inX - (x0 : ℚ)
      let top : ℚ := lerp (img.pix y0 x0 c) (img.pix y0 x1 c) fx
      let bot : ℚ := lerp (img.pix y1 x0 c) (img.pix y1 x1 c) fx
      lerp top bot fy }

/-- `tf.subtract(img_resized, IMAGENET_MEAN)`: per-channel mean subtraction
broadcast over the spatial axes. -/
def subtractMean (img : Image) : Image :=
  { img with pix := fun y x c => img.pix y x c - IMAGENET_MEAN c }

/-- `img_centered[:, :, ::-1]`: reverse the channel axis (RGB to BGR). -/
def reverseChannels (img : Image) : Image :=
  { img with pix := fun y x c => img.pix y x c.rev }

/-- `tf.reverse(image, [1])`: mirror the width axis (left-right). -/
def flip_left_right (img : Image) : Image :=
  { img with pix := fun y x c => img.pix y (img.w - 1 - x) c }

/-- The values drawn by the three `tf.random_uniform([], 0, 1)` ops on the
training path, as explicit inputs: the 50% augmentation gate of line 112,
the 25% per-transform gate of line 139, and the draw inside
`tf.image.random_flip_left_right`.  Each lies in [0, 1). -/
structure Draws where
  outer : ℚ
  gate : ℚ
  flipDraw : ℚ

/-- `flip` (lines 147-157): `tf.image.random_flip_left_right`, which mirrors
the image exactly when its internal uniform draw is below 0.5. -/
def flip (x : Image) (d : ℚ) : Image :=
  if d < 1 / 2 then flip_left_right x else x

/-- `augment` (lines 133-145) with the active configuration
`augmentations = [self.flip]`: the single loop iteration applies `flip`
exactly when the per-transform uniform draw is below 0.25. -/
def augment (x : Image) (dGate dFlip : ℚ) : Image :=
  if dGate < 1 / 4 then flip x dFlip else x

/-- `tf.one_hot(label, depth)`: entry `i` is 1.0 exactly when `i = label`;
an out-of-range (or negative) label therefore yields all off-values — the
op never raises. -/
def one_hot (label : Int) (depth : Nat) : List ℚ :=
  (List.range depth).map (fun i : Nat => if (i : Int) = label then 1 else 0)

/-- `_parse_function_train` (lines 96-114) from the decoded raster on:
one-hot the label, resize to 227x227, subtract the ImageNet mean, reverse
RGB to BGR, then with the 50% outer gate run the augmentation chain. -/
def parse_function_train (num_classes : Nat) (img : Image) (label : Int) (d : Draws) :
    Image × List ℚ :=
  let oneHotV := one_hot label num_classes
  let img_resized := resize_images img 227 227
  let img_centered := subtractMean img_resized
  let img_bgr := reverseChannels img_centered
  let img_out := if d.outer < 1 / 2 then augment img_bgr d.gate d.flipDraw else img_bgr
  (img_out, oneHotV)

/-- `_parse_function_inference` (lines 116-131) from the decoded raster on:
identical to the training parser but with no augmentation stage and no
random draw. -/
def parse_function_inference (num_classes : Nat) (img : Image) (label : Int) :
    Image × List ℚ :=
  let oneHotV := one_hot label num_classes
  let img_resized := resize_images img 227 227
  let img_centered := subtractMean img_resized
  let img_bgr := reverseChannels img_centered
  (img_bgr, oneHotV)

/-- The two parsing modes dispatched in `__init__` (lines 56-63). -/
inductive Mode
  | training
  | inference

/-- The per-sample transform: mode dispatch onto the two parse functions.
The `Draws` argument is the process random source; the inference branch
never reads it. -/
def transform (mode : Mode) (num_classes : Nat) (img : Image) (label : Int) (d : Draws) :
    Image × List ℚ :=
  match mode with
  | .training => parse_function_train num_classes img label d
  | .inference => parse_function_inference num_classes img label

/-- All three gates on the flip path fire: outer 50% gate, per-transform
25% gate, and the internal 50% draw of `random_flip_left_right`. -/
def augFires (d : Draws) : Prop :=
  d.outer < 1 / 2 ∧ d.gate < 1 / 4 ∧ d.flipDraw < 1 / 2

instance (d : Draws) : Decidable (augFires d) := by
  unfold augFires
  infer_instance

/-- Uniform draws on the quarter grid: each coordinate of the triple is one
of 0, 1/4, 1/2, 3/4, so each threshold of `augFires` is hit exactly. -/
def gridDraws (g : Fin 4 × Fin 4 × Fin 4) : Draws :=
  ⟨(g.1 : ℚ) / 4, (g.2.1 : ℚ) / 4, (g.2.2 : ℚ) / 4⟩

/-! ### Helper lemmas -/

lemma one_hot_length (l : Int) (n : Nat) : (one_hot l n).length = n := by
  simp [one_hot]

lemma one_hot_getD (l : Int) (n i : Nat) (hi : i < n) :
    (one_hot l n).getD i 0 = if (i : Int) = l then 1 else 0 := by
  unfold one_hot
  rw [List.getD_eq_getElem?_getD, List.getElem?_map, List.getElem?_range hi]
  rfl

/-! ### C8 and C1: one-hot encoding -/

/-- C8: for every label `l` with `0 <= l < num_classes`, the one-hot vector
produced by the transform has length `num_classes`, entry 1.0 at index `l`,
and entry 0.0 at every other index. -/
theorem one_hot_in_range (l : Int) (n : Nat) (h0 : 0 ≤ l) (h1 : l < (n : Int)) :
    (one_hot l n).length = n ∧
    (one_hot l n).getD l.toNat 0 = 1 ∧
    ∀ i, i < n → i ≠ l.toNat → (one_hot l n).getD i 0 = 0 := by
  refine ⟨one_hot_length l n, ?_, ?_⟩
  · rw [one_hot_getD l n l.toNat (by omega), if_pos (by omega)]
  · intro i hi hne
    rw [one_hot_getD l n i hi, if_neg (by omega)]

/-- Witness for C8 at `l = 1`, `num_classes = 3`. -/
theorem one_hot_in_range_witness :
    (0 ≤ (1 : Int)) ∧ ((1 : Int) < ((3 : Nat) : Int)) ∧
    ((one_hot 1 3).length = 3 ∧ (one_hot 1 3).getD (1 : Int).toNat 0 = 1 ∧
      ∀ i, i < 3 → i ≠ (1 : Int).toNat → (one_hot 1 3).getD i 0 = 0) :=
  ⟨by decide, by decide, one_hot_in_range 1 3 (by decide) (by decide)⟩

/-- C1 counterexample: at label `-1` with `num_classes = 2` the one-hot step
does NOT fail — `tf.one_hot` returns the ordinary all-zero vector `[0, 0]`
of length 2, refuting "fails with a RangeError rather than returning a
vector". -/
theorem one_hot_out_of_range_counterexample :
    one_hot (-1) 2 = [0, 0] ∧ (one_hot (-1) 2).length = 2 := ⟨rfl, rfl⟩

/-- C1 amended: for every label outside `[0, num_classes)` the one-hot step
returns (without error) the all-zero vector of length `num_classes`. -/
theorem one_hot_out_of_range_zero (l : Int) (n : Nat) (h : l < 0 ∨ (n : Int) ≤ l) :
    (one_hot l n).length = n ∧ ∀ q ∈ one_hot l n, q = 0 := by
  refine ⟨one_hot_length l n, ?_⟩
  intro q hq
  simp only [one_hot, List.mem_map, List.mem_range] at hq
  obtain ⟨i, hi, hq⟩ := hq
  rw [← hq, if_neg (by omega)]

/-- Witness for the amended C1 at `l = -1`, `num_classes = 2`. -/
theorem one_hot_out_of_range_zero_witness :
    ((-1 : Int) < 0 ∨ ((2 : Nat) : Int) ≤ -1) ∧
    ((one_hot (-1) 2).length = 2 ∧ ∀ q ∈ one_hot (-1) 2, q = 0) :=
  ⟨Or.inl (by decide), one_hot_out_of_range_zero (-1) 2 (Or.inl (by decide))⟩

/-! ### C2 and C9: manifest loading -/

lemma splitOnSpaceCh_no_space (t : List Char) (h : ' ' ∉ t) : splitOnSpaceCh t = [t] := by
  induction t with
  | nil => rfl
  | cons c cs ih =>
    simp only [List.mem_cons, not_or] at h
    have hne : ¬ c = ' ' := fun hc => h.1 hc.symm
    simp only [splitOnSpaceCh, hne, if_false, ih h.2]

lemma splitOnSpaceCh_append (p t : List Char) (h : ' ' ∉ p) :
    splitOnSpaceCh (p ++ ' ' :: t) = p :: splitOnSpaceCh t := by
  induction p with
  | nil => simp [splitOnSpaceCh]
  | cons c cs ih =>
    simp only [List.mem_cons, not_or] at h
    have hne : ¬ c = ' ' := fun hc => h.1 hc.symm
    simp only [List.cons_append, splitOnSpaceCh, hne, if_false, List.append_eq]
    rw [ih h.2]

lemma parseManifestLine_wellformed (root p t : List Char) (hp : ' ' ∉ p) (ht : ' ' ∉ t) :
    parseManifestLine root (p ++ ' ' :: t) = (pyInt t).map (fun v => (osPathJoin root p, v)) := by
  unfold parseManifestLine
  rw [splitOnSpaceCh_append p t hp, splitOnSpaceCh_no_space t ht]

/-- C2: on a manifest whose lines are all well-formed
(`<path-no-space><space><token accepted by int>`), `_read_txt_file` succeeds
and returns exactly one (path, label) pair per line, in order: pair `i` is
(`os.path.join(root, path_i)`, the integer parsed from line `i`'s token). -/
theorem read_txt_file_wellformed (root : List Char) (ps : List (List Char × List Char))
    (hw : ∀ x ∈ ps, ' ' ∉ x.1 ∧ ' ' ∉ x.2 ∧ (pyInt x.2).isSome) :
    read_txt_file root (ps.map (fun x => x.1 ++ ' ' :: x.2)) =
      .ok (ps.map (fun x => (osPathJoin root x.1, (pyInt x.2).getD 0))) := by
  induction ps with
  | nil => rfl
  | cons a rest ih =>
    obtain ⟨h1, h2, h3⟩ := hw a (List.mem_cons_self a rest)
    obtain ⟨v, hv⟩ := Option.isSome_iff_exists.mp h3
    simp only [List.map_cons, read_txt_file,
      parseManifestLine_wellformed root a.1 a.2 h1 h2, hv, Option.map_some',
      ih (fun x hx => hw x (List.mem_cons_of_mem a hx)), Option.getD_some]

/-- Witness for C2 on a two-line manifest. -/
theorem read_txt_file_wellformed_witness :
    (∀ x ∈ [("a.png".toList, "0".toList), ("b.png".toList, "17".toList)],
        ' ' ∉ x.1 ∧ ' ' ∉ x.2 ∧ (pyInt x.2).isSome) ∧
    read_txt_file "/r".toList
        ([("a.png".toList, "0".toList), ("b.png".toList, "17".toList)].map
          (fun x => x.1 ++ ' ' :: x.2)) =
      .ok ([("a.png".toList, "0".toList), ("b.png".toList, "17".toList)].map
          (fun x => (osPathJoin "/r".toList x.1, (pyInt x.2).getD 0))) :=
  ⟨by decide, read_txt_file_wellformed "/r".toList
      [("a.png".toList, "0".toList), ("b.png".toList, "17".toList)] (by decide)⟩

lemma parseManifestLine_eq_none_iff (root l : List Char) :
    parseManifestLine root l = none ↔ lineMalformed l = true := by
  unfold parseManifestLine lineMalformed
  cases hs : splitOnSpaceCh l with
  | nil => simp
  | cons p rest =>
    cases rest with
    | nil => simp
    | cons t rest2 => simp [Option.map_eq_none', Option.isNone_iff_eq_none]

/-- C9: `_read_txt_file` fails (with the grouped `FormatError`) if and only
if some manifest line is malformed — fewer than two space-split tokens
(including the empty line) or a second token `int` rejects; on every
manifest free of such lines it succeeds. -/
theorem read_txt_file_error_iff (root : List Char) (lines : List (List Char)) :
    read_txt_file root lines = .error .FormatError ↔
      ∃ l ∈ lines, lineMalformed l = true := by
  induction lines with
  | nil => simp [read_txt_file]
  | cons l ls ih =>
    simp only [read_txt_file]
    cases hp : parseManifestLine root l with
    | none =>
      constructor
      · intro _
        exact ⟨l, List.mem_cons_self l ls, (parseManifestLine_eq_none_iff root l).mp hp⟩
      · intro _
        rfl
    | some pr =>
      have hml : ¬ lineMalformed l = true := by
        intro hm
        rw [← parseManifestLine_eq_none_iff root l] at hm
        simp [hm] at hp
      cases hr : read_txt_file root ls with
      | ok rest =>
        constructor
        · intro hcontra
          exact Except.noConfusion hcontra
        · rintro ⟨x, hx, hmx⟩
          exfalso
          rcases List.mem_cons.mp hx with hx | hx
          · exact hml (hx ▸ hmx)
          · have herr : read_txt_file root ls = .error .FormatError := ih.mpr ⟨x, hx, hmx⟩
            rw [hr] at herr
            exact Except.noConfusion herr
      | error e =>
        cases e
        constructor
        · intro _
          obtain ⟨x, hx, hmx⟩ := ih.mp hr
          exact ⟨x, List.mem_cons_of_mem l hx, hmx⟩
        · intro _
          rfl

/-! ### C3: conjoined shuffle -/

lemma zip_eq_range_map (l1 : List (List Char)) (l2 : List Int) (h : l1.length = l2.length) :
    l1.zip l2 = (List.range l1.length).map (fun i => (l1.getD i [], l2.getD i 0)) := by
  induction l1 generalizing l2 with
  | nil => simp
  | cons a t ih =>
    cases l2 with
    | nil => simp at h
    | cons b t2 =>
      simp only [List.length_cons, List.range_succ_eq_map, List.map_cons, List.map_map,
        List.zip_cons_cons]
      rw [ih t2 (by simpa using h)]
      rfl

lemma getD_map_perm {β : Type} (f : Nat → β) (d : β) (perm : List Nat) (j : Nat)
    (hj : j < perm.length) :
    (perm.map f).getD j d = f (perm.getD j 0) := by
  rw [List.getD_eq_getElem?_getD, List.getElem?_map, List.getElem?_eq_getElem hj,
    List.getD_eq_getElem?_getD, List.getElem?_eq_getElem hj]
  rfl

/-- C3: `_shuffle_lists` reorders paths and labels by the same permutation
of `[0, data_size)`: output lengths equal input lengths, the multiset of
(path, label) pairs is unchanged, and output pair `j` is the input pair at
index `permutation[j]`. -/
theorem shuffle_lists_same_permutation (paths : List (List Char)) (labels : List Int)
    (perm : List Nat) (hlen : paths.length = labels.length)
    (hperm : perm.Perm (List.range paths.length)) :
    ((shuffle_lists paths labels perm).1.length = paths.length ∧
     (shuffle_lists paths labels perm).2.length = labels.length) ∧
    ((shuffle_lists paths labels perm).1.zip (shuffle_lists paths labels perm).2).Perm
      (paths.zip labels) ∧
    ∀ j, j < paths.length →
      (shuffle_lists paths labels perm).1.getD j [] = paths.getD (perm.getD j 0) [] ∧
      (shuffle_lists paths labels perm).2.getD j 0 = labels.getD (perm.getD j 0) 0 := by
  have hpl : perm.length = paths.length := by
    rw [hperm.length_eq, List.length_range]
  refine ⟨⟨?_, ?_⟩, ?_, ?_⟩
  · simp [shuffle_lists, hpl]
  · simp [shuffle_lists, hpl, hlen]
  · unfold shuffle_lists
    rw [List.zip_map', zip_eq_range_map paths labels hlen]
    exact hperm.map (fun i => (paths.getD i [], labels.getD i 0))
  · intro j hj
    have hj' : j < perm.length := by omega
    unfold shuffle_lists
    exact ⟨getD_map_perm (fun i => paths.getD i []) [] perm j hj',
           getD_map_perm (fun i => labels.getD i 0) 0 perm j hj'⟩

/-- Witness for C3 on a three-entry dataset with permutation `[2, 0, 1]`. -/
theorem shuffle_lists_same_permutation_witness :
    (["a".toList, "b".toList, "c".toList].length = ([10, 20, 30] : List Int).length) ∧
    (([2, 0, 1] : List Nat).Perm (List.range ["a".toList, "b".toList, "c".toList].length)) ∧
    (((shuffle_lists ["a".toList, "b".toList, "c".toList] [10, 20, 30] [2, 0, 1]).1.length =
        ["a".toList, "b".toList, "c".toList].length ∧
      (shuffle_lists ["a".toList, "b".toList, "c".toList] [10, 20, 30] [2, 0, 1]).2.length =
        ([10, 20, 30] : List Int).length) ∧
     ((shuffle_lists ["a".toList, "b".toList, "c".toList] [10, 20, 30] [2, 0, 1]).1.zip
        (shuffle_lists ["a".toList, "b".toList, "c".toList] [10, 20, 30] [2, 0, 1]).2).Perm
       (["a".toList, "b".toList, "c".toList].zip [10, 20, 30]) ∧
     ∀ j, j < ["a".toList, "b".toList, "c".toList].length →
       (shuffle_lists ["a".toList, "b".toList, "c".toList] [10, 20, 30] [2, 0, 1]).1.getD j [] =
         ["a".toList, "b".toList, "c".toList].getD (([2, 0, 1] : List Nat).getD j 0) [] ∧
       (shuffle_lists ["a".toList, "b".toList, "c".toList] [10, 20, 30] [2, 0, 1]).2.getD j 0 =
         ([10, 20, 30] : List Int).getD (([2, 0, 1] : List Nat).getD j 0) 0) :=
  ⟨by decide, by decide,
   shuffle_lists_same_permutation ["a".toList, "b".toList, "c".toList] [10, 20, 30] [2, 0, 1]
     (by decide) (by decide)⟩

/-! ### C4, C5, C6, C7, C10: the transform pipeline -/

lemma grid_lt_half (g : Fin 4) : ((g : ℚ) / 4 < 1 / 2) ↔ g.val < 2 := by
  fin_cases g <;> norm_num

lemma grid_lt_quarter (g : Fin 4) : ((g : ℚ) / 4 < 1 / 4) ↔ g.val < 1 := by
  fin_cases g <;> norm_num

/-- C4: with the three uniform draws explicit, the training parser is the
three-stage gated chain — the augmentation chain runs only under the 50%
outer gate, flip is attempted only under its 25% per-transform gate, and
mirrors only under its internal 50% draw; in every other outcome the output
is the unaugmented (inference) tensor.  Over uniform draws on the quarter
grid, the fraction of outcomes that flip is exactly 1/16 = 6.25%. -/
theorem train_augment_gating (num_classes : Nat) (img : Image) (label : Int) :
    (∀ d : Draws,
      parse_function_train num_classes img label d =
        if augFires d
        then (flip_left_right (parse_function_inference num_classes img label).1,
              (parse_function_inference num_classes img label).2)
        else parse_function_inference num_classes img label) ∧
    (((Finset.univ.filter (fun g : Fin 4 × Fin 4 × Fin 4 => augFires (gridDraws g))).card : ℚ) /
        ((Finset.univ : Finset (Fin 4 × Fin 4 × Fin 4)).card : ℚ) = 1 / 16) := by
  constructor
  · intro d
    simp only [parse_function_train, parse_function_inference, augment, flip, augFires]
    split_ifs <;> first | rfl | tauto
  · have hcongr : Finset.univ.filter (fun g : Fin 4 × Fin 4 × Fin 4 => augFires (gridDraws g)) =
        Finset.univ.filter (fun g => g.1.val < 2 ∧ g.2.1.val < 1 ∧ g.2.2.val < 2) := by
      apply Finset.filter_congr
      intro g _
      simp only [augFires, gridDraws, grid_lt_half, grid_lt_quarter]
    have hc4 : (Finset.univ.filter
        (fun g : Fin 4 × Fin 4 × Fin 4 => g.1.val < 2 ∧ g.2.1.val < 1 ∧ g.2.2.val < 2)).card = 4 := by
      decide
    have hc64 : (Finset.univ : Finset (Fin 4 × Fin 4 × Fin 4)).card = 64 := by
      decide
    rw [hcongr, hc4, hc64]
    norm_num

/-- C10: in training mode with flip as the sole enabled transform, every
draw outcome yields exactly the unaugmented inference tensor or its
left-right mirror — no third output exists. -/
theorem train_output_dichotomy (num_classes : Nat) (img : Image) (label : Int) (d : Draws) :
    parse_function_train num_classes img label d =
        parse_function_inference num_classes img label ∨
    parse_function_train num_classes img label d =
        (flip_left_right (parse_function_inference num_classes img label).1,
         (parse_function_inference num_classes img label).2) := by
  simp only [parse_function_train, parse_function_inference, augment, flip]
  split_ifs <;> first | exact Or.inl rfl | exact Or.inr rfl

/-- C5: in inference mode the transform ignores the random source entirely:
two invocations on the same decoded image and label give identical output,
whatever each process draws. -/
theorem inference_deterministic (num_classes : Nat) (img : Image) (label : Int) (d d' : Draws) :
    transform .inference num_classes img label d =
      transform .inference num_classes img label d' := rfl

/-- C6: in both modes, for every input raster of any source resolution, the
output tensor has shape exactly 227 x 227 x 3. -/
theorem transform_shape (mode : Mode) (num_classes : Nat) (img : Image) (label : Int)
    (d : Draws) :
    (transform mode num_classes img label d).1.shape = (227, 227, 3) := by
  cases mode with
  | training =>
    simp only [transform, parse_function_train, augment, flip]
    split_ifs <;> rfl
  | inference => rfl

lemma bgr_mean_zero (h w y x : Nat) (c : Fin 3) :
    (reverseChannels (subtractMean
        (resize_images ⟨h, w, fun _ _ c => IMAGENET_MEAN c⟩ 227 227))).pix y x c = 0 := by
  simp only [reverseChannels, subtractMean, resize_images, lerp]
  ring

/-- C7: the transform subtracts `IMAGENET_MEAN` and then reverses the
channel axis (RGB to BGR) — in inference mode the output is literally that
three-stage composition — and consequently a constant input raster equal to
the mean color produces, in either mode and under any draws, an output whose
every pixel is 0. -/
theorem mean_image_zero_output (mode : Mode) (num_classes : Nat) (h w : Nat) (label : Int)
    (d : Draws) :
    ((transform .inference num_classes ⟨h, w, fun _ _ c => IMAGENET_MEAN c⟩ label d).1 =
      reverseChannels (subtractMean
        (resize_images ⟨h, w, fun _ _ c => IMAGENET_MEAN c⟩ 227 227))) ∧
    ∀ y x : Nat, ∀ c : Fin 3,
      (transform mode num_classes ⟨h, w, fun _ _ c => IMAGENET_MEAN c⟩ label d).1.pix y x c
        = 0 := by
  refine ⟨rfl, ?_⟩
  intro y x c
  cases mode with
  | training =>
    simp only [transform, parse_function_train, augment, flip]
    split_ifs <;>
      first
        | exact bgr_mean_zero h w y x c
        | exact bgr_mean_zero h w y _ c
  | inference => exact bgr_mean_zero h w y x c

end MASF
